import Mathlib

/-
Shallow embedding of the codeflow sandboxed execution tracer
(`server/tracer.py`): the value serializer `serialize_value`, the
`SandboxedExecutor` (restricted import hook, per-line trace hook,
`execute`) and the top-level wrapper `trace_execution`.

Python's mutable runtime state (the process-wide trace hook, the
`__import__` entry in builtins, and `sys.stdin`) is modelled as an
explicit `SysState` record threaded through `execute`.  The traced
program itself (the argument of `exec`) is modelled as the sequence of
events the host interpreter delivers while running it: statement
("line") boundaries, module-load requests routed through the installed
`__import__`, and an uncaught exception.

Python heap values are modelled by `PVal` (immediates) together with a
`Heap` mapping object identities to container objects, so that shared
and cyclic object graphs — the inputs cycle detection is about — are
expressible.  The modelled value domain covers the branches of
`serialize_value` for primitives, lists, tuples, dicts (string keys)
and sets; class instances, type objects and callables (lines 69-114 of
tracer.py) are outside the modelled domain, and no claim refers to
them.  Floating-point values are likewise outside the model.
-/

/-- JSON-compatible serialized values: the codomain of `serialize_value`. -/
inductive SVal where
  | snull
  | sbool (b : Bool)
  | sint (z : Int)
  | sstr (s : String)
  | slist (xs : List SVal)
  | sdict (entries : List (String × SVal))

/-- Immediate Python values.  Containers live on the heap and are
reached through `vref id`, where `id` models the CPython object
identity `id(value)`. -/
inductive PVal where
  | vnone
  | vbool (b : Bool)
  | vint (z : Int)
  | vstr (s : String)
  | vref (id : Nat)
deriving DecidableEq, Repr

/-- Heap objects: the container values of tracer.py's serializer.
Dict keys are modelled as strings (`str(k)` pre-applied; for string
keys this is the identity). -/
inductive HObj where
  | hlist (elems : List PVal)
  | htuple (elems : List PVal)
  | hdict (entries : List (String × PVal))
  | hset (elems : List PVal)

/-- A heap assigns an object to every identity.  In CPython every id of
a live object resolves, so the map is total. -/
def Heap := Nat → HObj

/-- Python's `list(x)` applied to the result of a recursive
`serialize_value` call (tracer.py line 67).  On a serialized list it is
a copy; on the `"<max depth reached>"` sentinel string it explodes the
string into its characters, exactly as `list` does on a `str`.  The
remaining cases cannot occur there (the inner call on a fresh list
returns either a list or that sentinel); they are mapped to an empty
list to keep the function total. -/
def pyList : SVal → SVal
  | .slist xs => .slist xs
  | .sstr s => .slist (s.toList.map (fun c => .sstr (String.mk [c])))
  | _ => .slist []

/-- The recursion of tracer.py's `serialize_value`, driven by the fuel
`maxDepth + 1 - depth`: the guard `depth > max_depth` (line 26) is
exactly `fuel = 0`, and every recursive call at `depth + 1` runs at
`fuel - 1`.

Line-by-line correspondence with tracer.py:
* fuel 0 → `"<max depth reached>"` (lines 26-27);
* the `obj_id in seen` check (lines 30-32) is modelled on heap
  references only: primitive identities are never added to `seen`
  (line 45 runs after the primitive returns), and identities of
  distinct live objects are distinct, so the check is vacuous for
  primitives;
* primitives (lines 35-42), including the 200-character string cap;
* `seen.add(obj_id)` followed by `seen.copy()` on every descent
  (lines 45, 52, 62, 67) becomes passing `id :: seen` to every child:
  each child receives the path to the root and nothing a sibling did;
  the `finally: seen.discard(obj_id)` (line 119) only mutates the
  caller's dead private copy and has no observable effect;
* lists/tuples with the 20-element cap and `"... +<n> more"` marker
  (lines 49-55);
* dicts with the 20-pair cap and 50-character key cap (lines 58-63);
* sets (lines 66-67): the 20-element slice `list(value)[:20]` is a
  fresh list serialized as a whole at `depth + 1`, so its members are
  serialized at `depth + 2`.  The fresh list's identity is a new object
  id distinct from every id in `seen`, so its addition to the child
  `seen` can never change a membership test and is omitted. -/
def serializeAux (heap : Heap) : Nat → PVal → List Nat → SVal
  | 0, _, _ => .sstr "<max depth reached>"
  | _ + 1, .vnone, _ => .snull
  | _ + 1, .vbool b, _ => .sbool b
  | _ + 1, .vint z, _ => .sint z
  | _ + 1, .vstr s, _ => .sstr (if s.length > 200 then s.take 200 else s)
  | fuel + 1, .vref i, seen =>
    if i ∈ seen then .sstr "<circular ref>"
    else
      let seen1 := i :: seen
      match heap i with
      | .hlist elems =>
        let rendered := (elems.take 20).map (fun item => serializeAux heap fuel item seen1)
        if elems.length > 20 then
          .slist (rendered ++ [.sstr ("... +" ++ toString (elems.length - 20) ++ " more")])
        else
          .slist rendered
      | .htuple elems =>
        let rendered := (elems.take 20).map (fun item => serializeAux heap fuel item seen1)
        if elems.length > 20 then
          .slist (rendered ++ [.sstr ("... +" ++ toString (elems.length - 20) ++ " more")])
        else
          .slist rendered
      | .hdict entries =>
        .sdict ((entries.take 20).map (fun kv => (kv.1.take 50, serializeAux heap fuel kv.2 seen1)))
      | .hset elems =>
        pyList (match fuel with
          | 0 => .sstr "<max depth reached>"
          | fuel2 + 1 => .slist ((elems.take 20).map (fun item => serializeAux heap fuel2 item seen1)))

/-- tracer.py's `serialize_value(value, depth, max_depth, seen)`.  The
call sites in the tracer use the defaults `depth = 0`, `max_depth = 5`,
`seen = ∅`. -/
def serialize_value (heap : Heap) (value : PVal) (depth maxDepth : Nat) (seen : List Nat) : SVal :=
  serializeAux heap (maxDepth + 1 - depth) value seen

/-- Depth guard (tracer.py lines 26-27). -/
theorem serialize_value_maxDepth (heap : Heap) (value : PVal) (depth maxDepth : Nat)
    (seen : List Nat) (h : maxDepth < depth) :
    serialize_value heap value depth maxDepth seen = .sstr "<max depth reached>" := by
  unfold serialize_value
  have hfuel : maxDepth + 1 - depth = 0 := by omega
  rw [hfuel]
  cases value <;> rfl

/-- Circular-reference guard (tracer.py lines 30-32). -/
theorem serialize_value_seen (heap : Heap) (i : Nat) (depth maxDepth : Nat) (seen : List Nat)
    (hd : depth ≤ maxDepth) (h : i ∈ seen) :
    serialize_value heap (.vref i) depth maxDepth seen = .sstr "<circular ref>" := by
  unfold serialize_value
  have hfuel : maxDepth + 1 - depth = (maxDepth - depth) + 1 := by omega
  rw [hfuel]
  simp [serializeAux, h]

/-- Sequence branch (tracer.py lines 49-55), for both lists and tuples:
first 20 elements serialized at `depth + 1` with the extended path,
plus the `"... +<n> more"` marker exactly when more than 20 elements
exist. -/
theorem serialize_value_seq (heap : Heap) (i : Nat) (elems : List PVal)
    (depth maxDepth : Nat) (seen : List Nat)
    (hd : depth ≤ maxDepth) (hi : i ∉ seen)
    (hh : heap i = .hlist elems ∨ heap i = .htuple elems) :
    serialize_value heap (.vref i) depth maxDepth seen =
      (if elems.length > 20 then
        .slist (((elems.take 20).map
            (fun e => serialize_value heap e (depth + 1) maxDepth (i :: seen))) ++
          [.sstr ("... +" ++ toString (elems.length - 20) ++ " more")])
      else
        .slist ((elems.take 20).map
          (fun e => serialize_value heap e (depth + 1) maxDepth (i :: seen)))) := by
  unfold serialize_value
  have hfuel : maxDepth + 1 - depth = (maxDepth - depth) + 1 := by omega
  have hfuel2 : maxDepth + 1 - (depth + 1) = maxDepth - depth := by omega
  rw [hfuel, hfuel2]
  rcases hh with hh | hh <;> simp [serializeAux, hi, hh]

/-- Set branch (tracer.py lines 66-67): the 20-element slice is
serialized as a fresh list at `depth + 1`, so the set's members are
serialized at `depth + 2`; the result then goes through `list(...)`. -/
theorem serialize_value_set (heap : Heap) (i : Nat) (elems : List PVal)
    (depth maxDepth : Nat) (seen : List Nat)
    (hd : depth ≤ maxDepth) (hi : i ∉ seen) (hh : heap i = .hset elems) :
    serialize_value heap (.vref i) depth maxDepth seen =
      pyList (if maxDepth < depth + 1 then .sstr "<max depth reached>"
        else .slist ((elems.take 20).map
          (fun e => serialize_value heap e (depth + 2) maxDepth (i :: seen)))) := by
  unfold serialize_value
  have hfuel : maxDepth + 1 - depth = (maxDepth - depth) + 1 := by omega
  rw [hfuel]
  rcases Nat.lt_or_ge depth maxDepth with hlt | hge
  · have hfuel2 : maxDepth - depth = (maxDepth - (depth + 1)) + 1 := by omega
    have hfuel3 : maxDepth + 1 - (depth + 2) = maxDepth - (depth + 1) := by omega
    have hnot : ¬ maxDepth < depth + 1 := by omega
    rw [hfuel3]
    simp only [serializeAux, hi, hh, if_neg hi, hnot, if_false]
    rw [hfuel2]
  · have heq : maxDepth = depth := by omega
    have hfuel2 : maxDepth - depth = 0 := by omega
    have hyes : maxDepth < depth + 1 := by omega
    rw [hfuel2]
    simp [serializeAux, hi, hh, hyes]

/-- The process-wide standard-input stream (`sys.stdin`): either the
real stream that was installed before the run, or an in-memory
`io.StringIO(input_data)` buffer. -/
inductive Stdin where
  | real
  | redirected (data : String)
deriving DecidableEq, Repr

/-- Identity of a statement-level trace hook (`sys.gettrace()` /
`sys.settrace`): `host id` is an arbitrary pre-existing hook, and
`executor` is the `SandboxedExecutor.trace` bound method.  `none`
models no installed hook. -/
inductive THook where
  | host (id : Nat)
  | executor
deriving DecidableEq, Repr

/-- The process-wide `__import__` entry of the builtins table: either
the loader captured at executor construction (`self.original_import`)
or the executor's `restricted_import`. -/
inductive ImportHook where
  | originalLoader
  | restrictedLoader
deriving DecidableEq, Repr

/-- The three pieces of process-wide interpreter state that
`SandboxedExecutor.execute` overrides and must restore. -/
structure SysState where
  traceHook : Option THook
  importHook : ImportHook
  stdin : Stdin
deriving DecidableEq, Repr

/-- One Trace Step, the dict appended at tracer.py lines 171-178.  Real
steps carry no `"error"` key (`error = none`); the synthetic steps of
`trace_execution` carry `error = some msg`. -/
structure Step where
  step : Nat
  line : Nat
  locals : List (String × SVal)
  stack : List String
  error : Option String

/-- Events the host interpreter delivers while `exec(code, namespace)`
runs: a statement boundary (a `"line"` trace event, with the frame's
raw `f_locals` and the raw `inspect.stack()` as (function, filename)
pairs), a module-load request routed through the installed
`__import__`, and an uncaught exception with its message. -/
inductive Event where
  | line (lineNo : Nat) (rawLocals : List (String × PVal)) (rawStack : List (String × String))
  | importMod (name : String)
  | raiseErr (msg : String)

/-- tracer.py line 6. -/
def ALLOWED_MODULES : List String := ["math", "random"]

/-- The module loader captured at construction (tracer.py line 128).
For allow-listed modules (which exist) the load succeeds; the result is
the loaded module, identified by its name. -/
def original_import (name : String) : String := name

/-- Model of `SandboxedExecutor.restricted_import` (tracer.py lines 130-133):
delegate allow-listed names to the original loader, reject every other
name with an `ImportError` whose message embeds the requested name. -/
def restricted_import (name : String) : Except String String :=
  if name ∈ ALLOWED_MODULES then .ok (original_import name)
  else .error ("Import of \x27" ++ name ++ "\x27 is not allowed")

/-- The walk of tracer.py lines 157-163: skip frames named `trace`,
stop (exclusive) at the `execute` frame of tracer.py, keep the rest. -/
def stackWalk : List (String × String) → List String
  | [] => []
  | (fn, file) :: rest =>
    if fn = "trace" then stackWalk rest
    else if fn = "execute" ∧ List.IsInfix "tracer.py".toList file.toList then []
    else fn :: stackWalk rest

/-- Filtered user-code call stack (tracer.py lines 157-166): the walk
above followed by `stack.reverse()` so the result reads outermost
first.  The `except` fallback of lines 167-169 is unreachable in the
model because the walk cannot fail. -/
def stackFilter (frames : List (String × String)) : List String :=
  (stackWalk frames).reverse

/-- The locals snapshot of tracer.py lines 138-148: skip the
`__builtins__` binding and every dunder-prefixed name, serialize each
remaining value with the default bounds (`depth 0`, `max_depth 5`,
empty `seen`).  The per-value `except` fallback `"<unserializable>"`
(lines 147-148) is unreachable in the model because serialization is
total. -/
def traceLocals (heap : Heap) (rawLocals : List (String × PVal)) : List (String × SVal) :=
  (rawLocals.filter (fun kv => !(kv.1 == "__builtins__") && !(kv.1.startsWith "__"))).map
    (fun kv => (kv.1, serialize_value heap kv.2 0 5 []))

/-- The Trace Step built by one `"line"` invocation of
`SandboxedExecutor.trace` (tracer.py lines 136-178), given the already
incremented step counter. -/
def traceStep (heap : Heap) (counter : Nat) (lineNo : Nat)
    (rawLocals : List (String × PVal)) (rawStack : List (String × String)) : Step :=
  { step := counter, line := lineNo,
    locals := traceLocals heap rawLocals,
    stack := stackFilter rawStack,
    error := none }

/-- How `exec(code, namespace)` ends: normally, or with an uncaught
exception carrying a message. -/
inductive Outcome where
  | ok
  | raised (msg : String)

/-- The run of `exec(code, namespace)` under the installed hooks
(tracer.py line 201): returns the final step counter, the Trace Steps
appended by the trace hook in order, and the outcome.

* A `"line"` event invokes the installed statement-level hook; while
  `execute` is active that hook is `SandboxedExecutor.trace`, which
  increments the counter and appends a step (and returns itself, so
  tracing continues — modelled by the hook staying installed).
* A module-load request goes through the installed `__import__`; a
  rejection becomes an uncaught `ImportError` of the traced program.
* An uncaught exception ends the run with its message. -/
def runTraced (heap : Heap) (st : SysState) : List Event → Nat → Nat × List Step × Outcome
  | [], counter => (counter, [], .ok)
  | .line lineNo rawLocals rawStack :: rest, counter =>
    if st.traceHook = some .executor then
      let s := traceStep heap (counter + 1) lineNo rawLocals rawStack
      let res := runTraced heap st rest (counter + 1)
      (res.1, s :: res.2.1, res.2.2)
    else
      runTraced heap st rest counter
  | .importMod name :: rest, counter =>
    (match st.importHook with
      | .restrictedLoader =>
        match restricted_import name with
        | .ok _ => runTraced heap st rest counter
        | .error msg => (counter, [], .raised msg)
      | .originalLoader => runTraced heap st rest counter)
  | .raiseErr msg :: _, counter => (counter, [], .raised msg)

/-- The executor's per-instance fields `trace_steps` and
`step_counter` as they stand when `execute` is entered. -/
structure ExecutorState where
  trace_steps : List Step
  step_counter : Nat

/-- Python truthiness of the optional `input_data` argument
(tracer.py line 187: `if input_data:`): `None` and `""` are falsy. -/
def pyTruthy : Option String → Bool
  | none => false
  | some s => !s.isEmpty

/-- The standard-input stream in force while the traced code runs
(tracer.py lines 186-188): redirected only when `input_data` is
truthy, otherwise the pre-existing stream, untouched. -/
def effective_stdin (old : Stdin) (input_data : Option String) : Stdin :=
  if pyTruthy input_data then .redirected (input_data.getD "") else old

/-- The error raised out of `execute`: the (never produced, since the
signal alarm of tracer.py lines 194-195 is commented out) custom
`TimeoutError`, or any other exception with its message. -/
inductive ExecErr where
  | timeoutErr
  | exn (msg : String)

/-- Model of `SandboxedExecutor.execute` (tracer.py lines 182-215).  Returns the
result (the accumulated Trace Steps, or the uncaught exception that
`except Exception as e: raise e` re-raises) together with the final
process-wide state.

* Lines 183-184 reset `self.trace_steps` and `self.step_counter`, so
  the incoming `ExecutorState` is discarded.
* Lines 186-188 save `sys.stdin` and redirect it only for truthy
  `input_data`.
* Lines 190-191 install `restricted_import` as the builtins
  `__import__`.
* Lines 197-198 save the previous trace hook and install
  `SandboxedExecutor.trace`.
* On normal completion, line 203 restores the previous trace hook;
  the `finally` block (lines 210-212) restores `sys.stdin` and
  `__import__`.  On an exception, only the `finally` block runs: the
  trace hook restoration of line 203 is skipped, so the executor's
  hook stays installed. -/
def execute (heap : Heap) (st : SysState) (_exec0 : ExecutorState) (code : List Event)
    (input_data : Option String) : Except ExecErr (List Step) × SysState :=
  let _reset : ExecutorState := { trace_steps := [], step_counter := 0 }
  let old_stdin := st.stdin
  let st1 : SysState := { st with stdin := effective_stdin st.stdin input_data }
  let st2 : SysState := { st1 with importHook := .restrictedLoader }
  let old_trace := st2.traceHook
  let st3 : SysState := { st2 with traceHook := some .executor }
  match runTraced heap st3 code 0 with
  | (_, steps, .ok) =>
    let st4 : SysState := { st3 with traceHook := old_trace }
    let st5 : SysState := { st4 with stdin := old_stdin, importHook := .originalLoader }
    (.ok steps, st5)
  | (_, _, .raised msg) =>
    let st5 : SysState := { st3 with stdin := old_stdin, importHook := .originalLoader }
    (.error (.exn msg), st5)

/-- The synthetic padding step of tracer.py lines 223-230. -/
def paddingStep : Step := { step := 1, line := 0, locals := [], stack := [], error := none }

/-- The synthetic timeout step of tracer.py lines 233-235. -/
def timeoutStep : Step :=
  { step := 1, line := 0, locals := [], stack := [], error := some "Execution timeout exceeded" }

/-- The synthetic failure step of tracer.py line 237. -/
def errorStep (msg : String) : Step :=
  { step := 1, line := 0, locals := [], stack := [], error := some msg }

/-- Model of `trace_execution` (tracer.py lines 218-237): run a fresh
`SandboxedExecutor`; pad an empty trace with the single synthetic
step; convert a timeout or any other exception into a single synthetic
error step. -/
def trace_execution (heap : Heap) (st : SysState) (code : List Event)
    (input_data : Option String) : List Step × SysState :=
  match execute heap st { trace_steps := [], step_counter := 0 } code input_data with
  | (.ok trace, st2) => (if trace.isEmpty then [paddingStep] else trace, st2)
  | (.error .timeoutErr, st2) => ([timeoutStep], st2)
  | (.error (.exn msg), st2) => ([errorStep msg], st2)

/-- A heap with only empty lists, for runs whose locals carry no
containers. -/
def trivHeap : Heap := fun _ => .hlist []

/-- A representative pre-run process state: some pre-existing host
trace hook, the original module loader, the real standard input. -/
def st0 : SysState :=
  { traceHook := some (.host 7), importHook := .originalLoader, stdin := .real }

/-- Closed form of `execute`: the traced code runs under the fully
hooked state (executor trace hook, restricted loader, effective
stdin); on normal completion every overridden piece of state is
restored, while on an exception the `finally` block restores stdin and
the import hook but the trace-hook restoration of tracer.py line 203
is skipped. -/
theorem execute_eq (heap : Heap) (st : SysState) (exec0 : ExecutorState) (code : List Event)
    (input_data : Option String) :
    execute heap st exec0 code input_data =
      (match runTraced heap
          ⟨some .executor, .restrictedLoader, effective_stdin st.stdin input_data⟩ code 0 with
        | (_, steps, .ok) =>
          (.ok steps, ⟨st.traceHook, .originalLoader, st.stdin⟩)
        | (_, _, .raised msg) =>
          (.error (.exn msg), ⟨some .executor, .originalLoader, st.stdin⟩)) := rfl

/-- The Trace Step sequence returned by `trace_execution`, by cases on
how the traced code ends. -/
theorem trace_execution_eq (heap : Heap) (st : SysState) (code : List Event)
    (input_data : Option String) :
    (trace_execution heap st code input_data).1 =
      (match runTraced heap
          ⟨some .executor, .restrictedLoader, effective_stdin st.stdin input_data⟩ code 0 with
        | (_, steps, .ok) => if steps.isEmpty then [paddingStep] else steps
        | (_, _, .raised msg) => [errorStep msg]) := by
  unfold trace_execution
  rw [execute_eq]
  rcases runTraced heap
      ⟨some .executor, .restrictedLoader, effective_stdin st.stdin input_data⟩ code 0 with
    ⟨c, steps, out⟩
  cases out <;> rfl

/-- The steps produced by a run are numbered consecutively from one
past the counter the run starts with: on each `"line"` event the trace
hook first increments `self.step_counter` and then stores it. -/
theorem runTraced_step_numbers (heap : Heap) (st : SysState) :
    ∀ (code : List Event) (counter : Nat),
      ((runTraced heap st code counter).2.1).map Step.step =
        List.range' (counter + 1) ((runTraced heap st code counter).2.1).length := by
  intro code
  induction code with
  | nil => intro counter; simp [runTraced]
  | cons e rest ih =>
    intro counter
    cases e with
    | line lineNo rawLocals rawStack =>
      by_cases hk : st.traceHook = some .executor
      · simp only [runTraced, hk, if_pos]
        simp only [List.map_cons, List.length_cons, traceStep]
        rw [List.range'_succ]
        exact congrArg (List.cons (counter + 1)) (ih (counter + 1))
      · simp only [runTraced, hk, if_neg, ite_false]
        exact ih counter
    | importMod name =>
      cases hih : st.importHook with
      | restrictedLoader =>
        cases hri : restricted_import name with
        | ok m => simp only [runTraced, hih, hri]; exact ih counter
        | error msg => simp [runTraced, hih, hri]
      | originalLoader => simp only [runTraced, hih]; exact ih counter
    | raiseErr msg => simp [runTraced]

/-- An event the host can deliver without producing a Trace Step or an
exception: anything except a statement boundary, a disallowed import,
or an uncaught failure.  Code with no statements (an empty or
comment-only submission) delivers only such events. -/
def quietEvent : Event → Bool
  | .line _ _ _ => false
  | .importMod name => decide (name ∈ ALLOWED_MODULES)
  | .raiseErr _ => false

/-- A run over quiet events observes nothing and completes normally. -/
theorem runTraced_quiet (heap : Heap) (st : SysState) :
    ∀ (code : List Event) (counter : Nat), code.all quietEvent = true →
      runTraced heap st code counter = (counter, [], .ok) := by
  intro code
  induction code with
  | nil => intro counter _; rfl
  | cons e rest ih =>
    intro counter hq
    rw [List.all_cons, Bool.and_eq_true] at hq
    cases e with
    | line lineNo rawLocals rawStack => exact absurd hq.1 (by simp [quietEvent])
    | importMod name =>
      have hmem : name ∈ ALLOWED_MODULES := of_decide_eq_true hq.1
      have hri : restricted_import name = .ok (original_import name) := by
        simp [restricted_import, hmem]
      cases hih : st.importHook with
      | restrictedLoader => simp only [runTraced, hih, hri]; exact ih counter hq.2
      | originalLoader => simp only [runTraced, hih]; exact ih counter hq.2
    | raiseErr msg => exact absurd hq.1 (by simp [quietEvent])

/-- C1: the claim says all three overridden pieces of process state
(trace hook, module loader, stdin) are restored on every exit path of
`SandboxedExecutor.execute`.  Evaluated at a program that raises: the
`finally` block restores stdin and the module loader, but the
trace-hook restoration (tracer.py line 203) sits inside the `try`
before the handlers and is skipped on the exception path, so the
executor's hook stays installed instead of the previous hook. -/
theorem C1_trace_hook_not_restored_on_failure :
    (execute trivHeap st0 ⟨[], 0⟩ [.raiseErr "boom"] none).2.stdin = st0.stdin ∧
    (execute trivHeap st0 ⟨[], 0⟩ [.raiseErr "boom"] none).2.importHook = st0.importHook ∧
    (execute trivHeap st0 ⟨[], 0⟩ [.raiseErr "boom"] none).2.traceHook = some THook.executor ∧
    some THook.executor ≠ st0.traceHook := by
  refine ⟨rfl, rfl, rfl, ?_⟩
  simp [st0]

/-- The program of the C2 counterexample: one statement executes (and
is captured as a real Trace Step), then an uncaught failure occurs. -/
def progC2 : List Event := [.line 3 [] [], .raiseErr "boom"]

/-- C2 counterexample: the claim says the returned sequence contains
the real Trace Steps captured before the failure, followed by a final
failure record.  On `progC2` the real captured step (step 1, line 3)
is not in the returned sequence at all: `trace_execution` returns the
single synthetic error step and discards the captured steps. -/
theorem C2_counterexample_real_steps_discarded :
    (trace_execution trivHeap st0 progC2 none).1 = [errorStep "boom"] ∧
    Step.mk 1 3 [] [] none ∉ (trace_execution trivHeap st0 progC2 none).1 := by
  refine ⟨rfl, ?_⟩
  intro hmem
  rw [show (trace_execution trivHeap st0 progC2 none).1 = [errorStep "boom"] from rfl] at hmem
  rcases List.mem_singleton.mp hmem with h
  simp [errorStep, Step.mk.injEq] at h

/-- Shared helper: whenever `execute` ends in an uncaught failure, the
wrapper returns exactly the single synthetic error step. -/
theorem trace_execution_of_failure (heap : Heap) (st : SysState)
    (code : List Event) (input_data : Option String) (msg : String)
    (h : (execute heap st ⟨[], 0⟩ code input_data).1 = .error (.exn msg)) :
    (trace_execution heap st code input_data).1 = [errorStep msg] ∧
    ((trace_execution heap st code input_data).1).length = 1 := by
  rw [trace_execution_eq]
  rw [execute_eq] at h
  rcases hR : runTraced heap
      ⟨some .executor, .restrictedLoader, effective_stdin st.stdin input_data⟩ code 0 with
    ⟨c, steps, out⟩
  rw [hR] at h
  cases out with
  | ok => exact absurd h (by simp)
  | raised m =>
    simp only at h ⊢
    have hm : m = msg := by
      have := congrArg (fun r => match r with
        | Except.error (ExecErr.exn m') => m'
        | _ => "") h
      simpa using this
    subst hm
    exact ⟨rfl, rfl⟩

/-- C2 as amended: whenever the traced code ends with an uncaught
failure, `trace_execution` returns exactly one synthetic Trace Step
carrying the failure's message, regardless of how many statements
executed before the failure; the captured real steps are discarded. -/
theorem C2_uncaught_failure_single_synthetic_step (heap : Heap) (st : SysState)
    (code : List Event) (input_data : Option String) (msg : String)
    (h : (execute heap st ⟨[], 0⟩ code input_data).1 = .error (.exn msg)) :
    (trace_execution heap st code input_data).1 = [errorStep msg] ∧
    ((trace_execution heap st code input_data).1).length = 1 :=
  trace_execution_of_failure heap st code input_data msg h

/-- C2 witness: a run with two captured statements and then a failure
returns the single synthetic error step. -/
theorem C2_amended_witness :
    (trace_execution trivHeap st0 [.line 1 [] [], .line 2 [] [], .raiseErr "oops"] none).1 =
      [errorStep "oops"] :=
  (C2_uncaught_failure_single_synthetic_step trivHeap st0
    [.line 1 [] [], .line 2 [] [], .raiseErr "oops"] none "oops" rfl).1

/-- C3: `trace_execution` is total (failures never escape it — in the
model it returns a plain step list on every input), the returned
sequence is never empty, and an uncaught failure of the traced code is
converted into a Trace Step carrying the message in its `error`
field. -/
theorem C3_wrapper_total_nonempty (heap : Heap) (st : SysState) (code : List Event)
    (input_data : Option String) :
    (trace_execution heap st code input_data).1 ≠ [] ∧
    (∀ msg, (execute heap st ⟨[], 0⟩ code input_data).1 = .error (.exn msg) →
      ∃ s, (trace_execution heap st code input_data).1 = [s] ∧ s.error = some msg) := by
  constructor
  · rw [trace_execution_eq]
    rcases runTraced heap
        ⟨some .executor, .restrictedLoader, effective_stdin st.stdin input_data⟩ code 0 with
      ⟨c, steps, out⟩
    cases out with
    | ok =>
      cases steps with
      | nil => simp
      | cons a l => simp
    | raised msg => simp
  · intro msg h
    exact ⟨errorStep msg,
      (trace_execution_of_failure heap st code input_data msg h).1, rfl⟩

/-- C3 witness: a failing run yields a single step whose `error` field
carries the failure's message. -/
theorem C3_witness :
    ∃ s, (trace_execution trivHeap st0 [.raiseErr "division by zero"] none).1 = [s] ∧
      s.error = some "division by zero" :=
  (C3_wrapper_total_nonempty trivHeap st0 [.raiseErr "division by zero"] none).2
    "division by zero" rfl

/-- C4: in every sequence returned by `trace_execution`, the `step`
values are exactly `1, 2, 3, ...` with no gaps; and `execute` resets
the executor's `trace_steps` and `step_counter` on entry (tracer.py
lines 183-184), so the result is independent of whatever executor
state earlier runs left behind. -/
theorem C4_step_values_dense_from_one (heap : Heap) (st : SysState) (code : List Event)
    (input_data : Option String) :
    ((trace_execution heap st code input_data).1).map Step.step =
      List.range' 1 ((trace_execution heap st code input_data).1).length ∧
    (∀ e1 e2 : ExecutorState,
      execute heap st e1 code input_data = execute heap st e2 code input_data) := by
  refine ⟨?_, fun _ _ => rfl⟩
  rw [trace_execution_eq]
  have hs := runTraced_step_numbers heap
    ⟨some .executor, .restrictedLoader, effective_stdin st.stdin input_data⟩ code 0
  rcases hR : runTraced heap
      ⟨some .executor, .restrictedLoader, effective_stdin st.stdin input_data⟩ code 0 with
    ⟨c, steps, out⟩
  rw [hR] at hs
  cases out with
  | ok =>
    cases steps with
    | nil => simp [paddingStep, List.range']
    | cons a l => simpa using hs
  | raised msg => simp [errorStep, List.range']

/-- C5: cycle detection is path-scoped.  (1) A value whose identity is
already on the current recursive path yields `"<circular ref>"`.
(2) A self-referential list terminates with that sentinel at the
recursion point.  (3) Both children of a two-element list are
serialized with the same `seen` — the parent's path — so neither sees
identities the other descended through. (4) Hence two siblings that
reference a shared (but not mutually nested) object both serialize
normally. -/
theorem C5_path_scoped_cycle_detection (heap : Heap) (depth maxDepth : Nat)
    (seen : List Nat) (i : Nat) (hd : depth ≤ maxDepth) :
    (i ∈ seen → serialize_value heap (.vref i) depth maxDepth seen = .sstr "<circular ref>") ∧
    (heap i = .hlist [.vref i] → i ∉ seen → depth < maxDepth →
      serialize_value heap (.vref i) depth maxDepth seen = .slist [.sstr "<circular ref>"]) ∧
    (∀ a b : PVal, heap i = .hlist [a, b] → i ∉ seen →
      serialize_value heap (.vref i) depth maxDepth seen =
        .slist [serialize_value heap a (depth + 1) maxDepth (i :: seen),
          serialize_value heap b (depth + 1) maxDepth (i :: seen)]) ∧
    (∀ j, heap i = .hlist [.vref j, .vref j] → heap j = .hlist [] →
      i ∉ seen → j ∉ seen → j ≠ i → depth + 1 ≤ maxDepth →
      serialize_value heap (.vref i) depth maxDepth seen = .slist [.slist [], .slist []]) := by
  refine ⟨fun hmem => serialize_value_seen heap i depth maxDepth seen hd hmem, ?_, ?_, ?_⟩
  · intro hh hi hlt
    rw [serialize_value_seq heap i [.vref i] depth maxDepth seen hd hi (Or.inl hh)]
    simp only [List.length_cons, List.length_nil]
    rw [if_neg (by omega)]
    simp only [List.take, List.map]
    rw [serialize_value_seen heap i (depth + 1) maxDepth (i :: seen) (by omega)
      (List.mem_cons_self i seen)]
  · intro a b hh hi
    rw [serialize_value_seq heap i [a, b] depth maxDepth seen hd hi (Or.inl hh)]
    rw [if_neg (by simp)]
    simp [List.take, List.map]
  · intro j hh hj hi hjs hne hd1
    rw [serialize_value_seq heap i [.vref j, .vref j] depth maxDepth seen hd hi (Or.inl hh)]
    rw [if_neg (by simp)]
    have hjn : j ∉ i :: seen := by
      intro hmem
      rcases List.mem_cons.mp hmem with h | h
      · exact hne h
      · exact hjs h
    have hchild : serialize_value heap (.vref j) (depth + 1) maxDepth (i :: seen) =
        .slist [] := by
      rw [serialize_value_seq heap j [] (depth + 1) maxDepth (i :: seen) hd1 hjn (Or.inl hj)]
      simp
    simp [List.take, List.map, hchild]

/-- The heap of the C5 witness: object 0 is a list containing itself;
object 1 is a list whose two entries both reference the shared object
2; object 2 is an empty list. -/
def heapC5 : Heap := fun n =>
  if n = 0 then .hlist [.vref 0] else if n = 1 then .hlist [.vref 2, .vref 2] else .hlist []

/-- C5 witness: an identity already on the path yields the sentinel; a
self-referential list terminates with the sentinel inside; siblings
sharing object 2 both serialize normally. -/
theorem C5_witness :
    serialize_value heapC5 (.vref 3) 0 5 [3] = .sstr "<circular ref>" ∧
    serialize_value heapC5 (.vref 0) 0 5 [] = .slist [.sstr "<circular ref>"] ∧
    serialize_value heapC5 (.vref 1) 0 5 [] = .slist [.slist [], .slist []] :=
  ⟨(C5_path_scoped_cycle_detection heapC5 0 5 [3] 3 (by omega)).1 (by simp),
   (C5_path_scoped_cycle_detection heapC5 0 5 [] 0 (by omega)).2.1 rfl (by simp) (by omega),
   (C5_path_scoped_cycle_detection heapC5 0 5 [] 1 (by omega)).2.2.2 2 rfl rfl
     (by simp) (by simp) (by omega) (by omega)⟩

/-- C6: a list or tuple with more than 20 elements serializes to
exactly the first 20 elements — each recursively serialized at
`depth + 1` with the extended (copied) path — followed by a single
trailing `"... +<n> more"` string where `n` is the number omitted; a
sequence of 20 or fewer elements gets no marker. -/
theorem C6_sequence_truncation (heap : Heap) (depth maxDepth : Nat) (seen : List Nat)
    (i : Nat) (elems : List PVal) (hd : depth ≤ maxDepth) (hi : i ∉ seen)
    (hh : heap i = .hlist elems ∨ heap i = .htuple elems) :
    (20 < elems.length →
      ∃ rendered, serialize_value heap (.vref i) depth maxDepth seen =
          .slist (rendered ++ [.sstr ("... +" ++ toString (elems.length - 20) ++ " more")]) ∧
        rendered.length = 20 ∧
        rendered = (elems.take 20).map
          (fun e => serialize_value heap e (depth + 1) maxDepth (i :: seen))) ∧
    (elems.length ≤ 20 →
      serialize_value heap (.vref i) depth maxDepth seen =
        .slist (elems.map
          (fun e => serialize_value heap e (depth + 1) maxDepth (i :: seen)))) := by
  constructor
  · intro hlen
    refine ⟨(elems.take 20).map
      (fun e => serialize_value heap e (depth + 1) maxDepth (i :: seen)), ?_, ?_, rfl⟩
    · rw [serialize_value_seq heap i elems depth maxDepth seen hd hi hh, if_pos hlen]
    · rw [List.length_map, List.length_take]
      omega
  · intro hlen
    rw [serialize_value_seq heap i elems depth maxDepth seen hd hi hh,
      if_neg (by omega), List.take_of_length_le hlen]

/-- The 21-element list of the C6 witness. -/
def list21 : List PVal := (List.range 21).map (fun k => .vint k)

/-- The heap of the C6 witness: every identity holds the 21-element
list. -/
def heapC6 : Heap := fun _ => .hlist list21

/-- C6 witness: 21 elements render as 20 serialized elements plus the
`"... +1 more"` marker. -/
theorem C6_witness :
    ∃ rendered, serialize_value heapC6 (.vref 0) 0 5 [] =
        .slist (rendered ++ [.sstr ("... +" ++ toString (list21.length - 20) ++ " more")]) ∧
      rendered.length = 20 ∧
      rendered = (list21.take 20).map
        (fun e => serialize_value heapC6 e 1 5 [0]) :=
  (C6_sequence_truncation heapC6 0 5 [] 0 list21 (by omega) (by simp)
    (Or.inl rfl)).1 (by decide)

/-- C7: while a run is active the installed loader is
`restricted_import`: an allow-listed name (`math`, `random`) is
delegated to the original loader and succeeds; any other name fails
with an `ImportError` whose message carries the requested name, and
the top-level wrapper converts that failure into a synthetic error
step instead of letting it crash the caller. -/
theorem C7_import_gatekeeper (heap : Heap) (st : SysState) (input_data : Option String)
    (name : String) :
    (name ∈ ALLOWED_MODULES →
      restricted_import name = .ok (original_import name) ∧
      (execute heap st ⟨[], 0⟩ [.importMod name] input_data).1 = .ok []) ∧
    (name ∉ ALLOWED_MODULES →
      restricted_import name = .error ("Import of \x27" ++ name ++ "\x27 is not allowed") ∧
      (∃ pre post,
        ("Import of \x27" ++ name ++ "\x27 is not allowed") = pre ++ name ++ post) ∧
      (trace_execution heap st [.importMod name] input_data).1 =
        [errorStep ("Import of \x27" ++ name ++ "\x27 is not allowed")]) := by
  constructor
  · intro hmem
    have hri : restricted_import name = .ok (original_import name) := by
      simp [restricted_import, hmem]
    refine ⟨hri, ?_⟩
    rw [execute_eq]
    simp [runTraced, hri]
  · intro hmem
    have hri : restricted_import name =
        .error ("Import of \x27" ++ name ++ "\x27 is not allowed") := by
      simp [restricted_import, hmem]
    refine ⟨hri, ⟨"Import of \x27", "\x27 is not allowed", rfl⟩, ?_⟩
    rw [trace_execution_eq]
    simp [runTraced, hri]

/-- C7 witness: `math` is loaded through the original loader and the
run completes; `os` is rejected with a message carrying the name, and
the wrapper returns that message as data. -/
theorem C7_witness :
    (restricted_import "math" = .ok "math" ∧
      (execute trivHeap st0 ⟨[], 0⟩ [.importMod "math"] none).1 = .ok []) ∧
    (restricted_import "os" = .error "Import of \x27os\x27 is not allowed" ∧
      (trace_execution trivHeap st0 [.importMod "os"] none).1 =
        [errorStep "Import of \x27os\x27 is not allowed"]) := by
  have h1 := (C7_import_gatekeeper trivHeap st0 none "math").1 (by decide)
  have h2 := (C7_import_gatekeeper trivHeap st0 none "os").2 (by decide)
  exact ⟨⟨h1.1, h1.2⟩, ⟨h2.1, h2.2.2⟩⟩

/-- C8: a run that observes zero statements (and completes — e.g. an
empty or comment-only submission, possibly with allow-listed imports)
returns exactly the single synthetic padding step
`{step 1, line 0, locals {}, stack []}` with no `error` field. -/
theorem C8_zero_statements_padding (heap : Heap) (st : SysState) (code : List Event)
    (input_data : Option String) (h : code.all quietEvent = true) :
    (trace_execution heap st code input_data).1 = [paddingStep] ∧
    paddingStep = { step := 1, line := 0, locals := [], stack := [], error := none } := by
  rw [trace_execution_eq,
    runTraced_quiet heap ⟨some .executor, .restrictedLoader,
      effective_stdin st.stdin input_data⟩ code 0 h]
  exact ⟨rfl, rfl⟩

/-- C8 witness: a submission with no statements (only one allow-listed
module load) yields exactly the padding step. -/
theorem C8_witness :
    (trace_execution trivHeap st0 [.importMod "math"] none).1 = [paddingStep] ∧
    paddingStep = { step := 1, line := 0, locals := [], stack := [], error := none } :=
  C8_zero_statements_padding trivHeap st0 [.importMod "math"] none (by decide)

/-- C9: `execute` decides stdin redirection by Python truthiness of
`input_data`, not by presence: the empty string (provided but falsy)
leaves stdin untouched and the whole run is identical to the
no-input run; only a non-empty string redirects. -/
theorem C9_stdin_redirection_by_truthiness (heap : Heap) (st : SysState)
    (exec0 : ExecutorState) (code : List Event) :
    effective_stdin st.stdin (some "") = st.stdin ∧
    effective_stdin st.stdin none = st.stdin ∧
    (∀ s : String, s ≠ "" → effective_stdin st.stdin (some s) = .redirected s) ∧
    execute heap st exec0 code (some "") = execute heap st exec0 code none := by
  refine ⟨rfl, rfl, ?_, rfl⟩
  intro s hs
  have hne : s.isEmpty = false := by
    rcases hb : s.isEmpty with _ | _
    · rfl
    · exact absurd ((String.isEmpty_iff s).mp hb) hs
  simp [effective_stdin, pyTruthy, hne]

/-- C9 witness: empty-string input leaves stdin alone and the run
equals the no-input run; non-empty input redirects. -/
theorem C9_witness :
    effective_stdin Stdin.real (some "") = Stdin.real ∧
    effective_stdin Stdin.real (some "data") = Stdin.redirected "data" ∧
    execute trivHeap st0 ⟨[], 0⟩ [.line 1 [] []] (some "") =
      execute trivHeap st0 ⟨[], 0⟩ [.line 1 [] []] none := by
  have h := C9_stdin_redirection_by_truthiness trivHeap st0 ⟨[], 0⟩ [.line 1 [] []]
  exact ⟨h.1, h.2.2.1 "data" (by decide), h.2.2.2⟩

/-- C10: a set's members are serialized one recursion level deeper
than a list's members at the same depth.  (1) A set at `depth` renders
its (truncated) members at `depth + 2`, through `pyList`.  (2) A list
at the same `depth` renders its members at `depth + 1`.  (3) Hence at
`depth = maxDepth - 1` a set member already reads
`"<max depth reached>"` while the same object as a list member still
serializes normally. -/
theorem C10_set_members_one_level_deeper (heap : Heap) (depth maxDepth : Nat)
    (seen : List Nat) (i j m : Nat) (hd : depth ≤ maxDepth)
    (hi : i ∉ seen) (hj : j ∉ seen) :
    (∀ elems, heap i = .hset elems →
      serialize_value heap (.vref i) depth maxDepth seen =
        pyList (if maxDepth < depth + 1 then .sstr "<max depth reached>"
          else .slist ((elems.take 20).map
            (fun e => serialize_value heap e (depth + 2) maxDepth (i :: seen))))) ∧
    (∀ elems, heap j = .hlist elems → elems.length ≤ 20 →
      serialize_value heap (.vref j) depth maxDepth seen =
        .slist (elems.map
          (fun e => serialize_value heap e (depth + 1) maxDepth (j :: seen)))) ∧
    (heap i = .hset [.vref m] → heap j = .hlist [.vref m] → heap m = .hlist [] →
      m ≠ j → m ∉ seen → depth + 1 = maxDepth →
      serialize_value heap (.vref i) depth maxDepth seen =
        .slist [.sstr "<max depth reached>"] ∧
      serialize_value heap (.vref j) depth maxDepth seen = .slist [.slist []]) := by
  refine ⟨fun elems hh => serialize_value_set heap i elems depth maxDepth seen hd hi hh,
    ?_, ?_⟩
  · intro elems hh hlen
    rw [serialize_value_seq heap j elems depth maxDepth seen hd hj (Or.inl hh),
      if_neg (by omega), List.take_of_length_le hlen]
  · intro hhi hhj hhm hmj hms hdm
    constructor
    · rw [serialize_value_set heap i [.vref m] depth maxDepth seen hd hi hhi,
        if_neg (by omega)]
      simp only [List.take, List.map]
      rw [serialize_value_maxDepth heap (.vref m) (depth + 2) maxDepth (i :: seen) (by omega)]
      rfl
    · rw [serialize_value_seq heap j [.vref m] depth maxDepth seen hd hj (Or.inl hhj),
        if_neg (by simp)]
      have hmn : m ∉ j :: seen := by
        intro hmem
        rcases List.mem_cons.mp hmem with h | h
        · exact hmj h
        · exact hms h
      have hchild : serialize_value heap (.vref m) (depth + 1) maxDepth (j :: seen) =
          .slist [] := by
        rw [serialize_value_seq heap m [] (depth + 1) maxDepth (j :: seen) (by omega) hmn
          (Or.inl hhm)]
        simp
      simp [List.take, List.map, hchild]

/-- The heap of the C10 witness: object 0 is the set `{object 2}`,
object 1 is the list `[object 2]`, object 2 is an empty list. -/
def heapC10 : Heap := fun n =>
  if n = 0 then .hset [.vref 2] else if n = 1 then .hlist [.vref 2] else .hlist []

/-- C10 witness: at depth 4 with the default bound 5, the set member
already reads `"<max depth reached>"` while the same object as a list
member still serializes normally. -/
theorem C10_witness :
    serialize_value heapC10 (.vref 0) 4 5 [] = .slist [.sstr "<max depth reached>"] ∧
    serialize_value heapC10 (.vref 1) 4 5 [] = .slist [.slist []] :=
  (C10_set_members_one_level_deeper heapC10 4 5 [] 0 1 2 (by omega) (by simp)
    (by simp)).2.2 rfl rfl rfl (by omega) (by simp) (by omega)
